import Mathlib

/-!
Verification of the webhook ingestion and dispatch subsystem of the
`twitch-api` client library (Deno/TypeScript).

The embedding models:
* `Client.handleWebhookWithoutResponse` (mod.ts) — the webhook receiver;
* `Webhook.verifyMessage` and the `Webhook` async iterator (Webhook.ts);
* the `AsyncQueue` helper class (mod.ts) — a small-step transition system
  that captures promise generations, the mutable `#items` array (including
  the aliasing created by `this.#items = []` while another reader still
  iterates the old array object), and per-reader progress.

External platform builtins (the std HMAC-SHA256 hex digest, `JSON.parse`,
`Date` parsing) are supplied as an environment of pure functions: they are
not code of this repository.  Machine arithmetic: JS dates are millisecond
integers, modelled as `Int`.
-/

namespace Twitch

/-- An inbound HTTP request as the handler sees it: the four
`Twitch-Eventsub-*` headers (a `Headers.get` miss is `none`) and the raw
body, already decoded to a string (`decoder.decode(await Deno.readAll(req.body))`). -/
structure ServerRequest where
  mId : Option String
  mType : Option String
  mTime : Option String
  signature : Option String
  body : String

/-- A dynamically-typed JavaScript value, as far as the webhook code
manipulates them: JSON results, the queue items `{request, response, data}`
(whose `request` field is the raw server request object), and field
accesses that may yield `undefined`. -/
inductive JsValue where
  | undefined
  | jnull
  | jbool (b : Bool)
  | jnum (n : Int)
  | jstr (s : String)
  | jobj (fields : List (String × JsValue))
  | jreq (r : ServerRequest)

/-- JS exceptions the modelled code can raise. -/
inductive JsThrow where
  /-- `Error("A webhook secret wasn't provided, so messages from Twitch can't be verified.")` -/
  | noSecret
  /-- `SyntaxError` from `JSON.parse` on a malformed body. -/
  | jsonError
  /-- `TypeError` from a property access on `undefined` or `null`. -/
  | typeError
deriving DecidableEq

/-- JS property access `v[k]`: throws `TypeError` on `undefined`/`null`,
looks the key up on plain objects (missing key gives `undefined`), and
yields `undefined` for the keys this code reads on any other value. -/
def jsGet : JsValue → String → Except JsThrow JsValue
  | .undefined, _ => .error .typeError
  | .jnull, _ => .error .typeError
  | .jobj fields, k => .ok ((fields.lookup k).getD .undefined)
  | _, _ => .ok .undefined

/-- JS truthiness, used by `if (callback.event)`. -/
def jsTruthy : JsValue → Bool
  | .undefined => false
  | .jnull => false
  | .jbool b => b
  | .jnum n => n != 0
  | .jstr s => s != ""
  | .jobj _ => true
  | .jreq _ => true

/-- JS strict equality `===` as used by `callback.subscription.id === this.id`:
value equality on primitives.  Objects compare by reference in JS; the model
never compares two object literals, so object operands compare unequal. -/
def jsStrictEq : JsValue → JsValue → Bool
  | .undefined, .undefined => true
  | .jnull, .jnull => true
  | .jbool a, .jbool b => a == b
  | .jnum a, .jnum b => a == b
  | .jstr a, .jstr b => a == b
  | _, _ => false

/-- The platform builtins the webhook code calls, supplied as pure
functions.  They are external to this repository (Deno std library and
ECMAScript builtins). -/
structure JsEnv where
  /-- `new HmacSha256(secret)` / `.update(msg)` / `.hex()` from
  `deno.land/std/hash/sha256.ts`: the lowercase hex HMAC-SHA256 digest of
  `msg` keyed by `secret`. -/
  hmacHex : String → String → String
  /-- `JSON.parse`; `none` models a thrown `SyntaxError`. -/
  parseJson : String → Option JsValue
  /-- `+new Date(s)`: milliseconds since epoch; `none` models `NaN`
  (an unparseable date), which makes every `<` comparison false. -/
  parseTime : String → Option Int

/-! ## The `AsyncQueue` helper class (mod.ts)

```
class AsyncQueue<T> {
  #done: boolean; #items: T[]; #resolve: () => void; #promise: Promise<void>
  _defer() { this.#promise = new Promise(r => this.#resolve = r) }
  async*[Symbol.asyncIterator]() {
    while (!this.#done) { await this.#promise; yield* this.#items; this.#items = [] }
  }
  push(item: T) { this.#items.push(item); this.#resolve(); this._defer() }
  end() { this.#done = true; this.#resolve() }
}
```

The model is a labelled transition system.  `gen` counts promise
generations: the promises of generations `< gen` are resolved, generation
`gen` is the pending one installed by `_defer`.  The `#items` field points
to a mutable array object; `this.#items = []` in the iterator abandons the
old array (which a concurrently suspended `yield*` of another reader may
still be iterating) and installs a fresh one.  `hist` holds the abandoned
array objects in creation order and `cur` is the array `#items` currently
points to, so array object number `b` is `(hist ++ [cur]).getD b []`.
`log` is bookkeeping only: the sequence of all pushed items. -/

/-- State of one `AsyncQueue` instance. -/
structure AsyncQueue (T : Type) where
  /-- `#done` -/
  done : Bool
  /-- Abandoned `#items` array objects, oldest first. -/
  hist : List (List T)
  /-- The array object `#items` currently points to. -/
  cur : List T
  /-- Number of resolved promise generations. -/
  gen : Nat
  /-- Bookkeeping: every item ever pushed, in push order. -/
  log : List T

/-- The queue as constructed: not done, one empty array, pending promise. -/
def AsyncQueue.init {T : Type} : AsyncQueue T :=
  { done := false, hist := [], cur := [], gen := 0, log := [] }

/-- `push(item)`: append to the current array, resolve the pending promise
and defer a fresh one. -/
def AsyncQueue.push {T : Type} (q : AsyncQueue T) (x : T) : AsyncQueue T :=
  { q with cur := q.cur ++ [x], gen := q.gen + 1, log := q.log ++ [x] }

/-- `end()`: set `#done` and resolve the pending promise. -/
def AsyncQueue.endQueue {T : Type} (q : AsyncQueue T) : AsyncQueue T :=
  { q with done := true, gen := q.gen + 1 }

/-- All array objects ever used as `#items`, in creation order. -/
def AsyncQueue.allBufs {T : Type} (q : AsyncQueue T) : List (List T) :=
  q.hist ++ [q.cur]

/-- Contents of array object number `b`. -/
def AsyncQueue.bufGet {T : Type} (q : AsyncQueue T) (b : Nat) : List T :=
  q.allBufs.getD b []

/-- Where one reader (one running `[Symbol.asyncIterator]()` generator)
stands in its `while (!this.#done) { await …; yield* …; … }` loop. -/
inductive ReaderPhase where
  /-- Suspended at `await this.#promise`, waiting for generation `g` to resolve. -/
  | waiting (g : Nat)
  /-- Executing `yield* items` over array object `b`, the first `idx`
  elements already yielded to the consumer. -/
  | yielding (b : Nat) (idx : Nat)
  /-- The generator returned (the `while` guard saw `#done`). -/
  | finished
deriving DecidableEq

/-- One attached reader. -/
structure ReaderState (T : Type) where
  phase : ReaderPhase
  /-- The items this reader's consumer has received, in order. -/
  obs : List T
  /-- Bookkeeping: total length of the abandoned arrays at attach time. -/
  base : Nat
deriving DecidableEq

/-- A queue together with its attached readers. -/
structure QWorld (T : Type) where
  q : AsyncQueue T
  readers : List (ReaderState T)

/-- The empty world: a fresh queue, no readers. -/
def QWorld.init {T : Type} : QWorld T :=
  { q := AsyncQueue.init, readers := [] }

/-- Scheduler actions.  `wake`, `yieldStep` and `finishYield` are the
suspension points of reader `r`'s generator; push/endQueue/attach come from
producer and consumer code.  The event loop interleaves these. -/
inductive QAct (T : Type) where
  /-- `q.push x` by the producer. -/
  | push (x : T)
  /-- `q.end()`. -/
  | endQueue
  /-- A new consumer starts iterating: the generator body runs up to its
  first suspension (the `while` guard, then `await this.#promise`). -/
  | attach
  /-- Reader `r`'s awaited promise has resolved and its continuation runs:
  `yield* this.#items` begins, capturing the current array object. -/
  | wake (r : Nat)
  /-- Reader `r`'s `yield*` hands the next element of its captured array to
  the consumer. -/
  | yieldStep (r : Nat)
  /-- Reader `r`'s `yield*` is exhausted: `this.#items = []` runs, the
  `while` guard is re-checked and the generator either returns or suspends
  on the pending promise. -/
  | finishYield (r : Nat)

/-- One scheduler step.  Actions whose enabling condition fails (waking a
reader whose promise is unresolved, stepping a reader that is not at that
suspension point) leave the world unchanged. -/
def QWorld.step {T : Type} (w : QWorld T) : QAct T → QWorld T
  | .push x => { w with q := w.q.push x }
  | .endQueue => { w with q := w.q.endQueue }
  | .attach =>
    { w with readers := w.readers ++
        [{ phase := if w.q.done then .finished else .waiting w.q.gen,
           obs := [],
           base := w.q.hist.flatten.length }] }
  | .wake r =>
    match w.readers.get? r with
    | some rd =>
      match rd.phase with
      | .waiting g =>
        if g < w.q.gen then
          { w with readers :=
              w.readers.set r { rd with phase := .yielding w.q.hist.length 0 } }
        else w
      | _ => w
    | none => w
  | .yieldStep r =>
    match w.readers.get? r with
    | some rd =>
      match rd.phase with
      | .yielding b i =>
        match (w.q.bufGet b).get? i with
        | some x =>
          { w with readers :=
              w.readers.set r { rd with phase := .yielding b (i + 1), obs := rd.obs ++ [x] } }
        | none => w
      | _ => w
    | none => w
  | .finishYield r =>
    match w.readers.get? r with
    | some rd =>
      match rd.phase with
      | .yielding b i =>
        if i < (w.q.bufGet b).length then w
        else
          { q := { w.q with hist := w.q.hist ++ [w.q.cur], cur := [] },
            readers := w.readers.set r
              { rd with phase := if w.q.done then .finished else .waiting w.q.gen } }
      | _ => w
    | none => w

/-- Run a schedule from a world. -/
def QWorld.run {T : Type} (w : QWorld T) (acts : List (QAct T)) : QWorld T :=
  acts.foldl QWorld.step w

/-! ## `Webhook.verifyMessage` (Webhook.ts) and the `Client` receiver (mod.ts) -/

/-- An HTTP response value as the handler returns it: `{ status }`,
`{ status: 200, body: json.challenge }`, etc. -/
structure Response where
  status : Nat
  body : Option JsValue

/-- ```
static verifyMessage(secret: string, body: string) {
  const sha = new HmacSha256(secret); sha.update(body)
  return 'sha256=' + sha.hex()
}
``` -/
def Webhook.verifyMessage (env : JsEnv) (secret body : String) : String :=
  "sha256=" ++ env.hmacHex secret body

/-- The webhook-relevant state of a `Client`.  The constructor runs
`this.#webhookSecret = loginOptions.webhookSecret || ''`, so an absent
secret is the empty string.  `#seenWebhooks` is a `Set<string>`, modelled
as its insertion-ordered element list.  REST-only fields (`clientId`,
`scopes`, `accessToken`, …) play no part in webhook handling and are
omitted. -/
structure Client where
  webhookSecret : String
  seenWebhooks : List String
  webhookQ : AsyncQueue JsValue

/-- `new Set()` / `Set.add(x)`: insert `x` if absent. -/
def insertSeen (x : String) (s : List String) : List String :=
  if x ∈ s then s else s ++ [x]

/-- The queue item built in the `'notification'` case:
`{ request: req, response: { status: 200 }, data: json }`. -/
def mkNotifItem (req : ServerRequest) (json : JsValue) : JsValue :=
  .jobj [("request", .jreq req),
         ("response", .jobj [("status", .jnum 200)]),
         ("data", json)]

/-- The handler's local `isStillValid`:
`+new Date() - +new Date(mTime) < 1000 * 60 * 10`.  An unparseable
timestamp is `NaN` and every comparison with `NaN` is false. -/
def isStillValidAt (env : JsEnv) (now : Int) (mTime : String) : Bool :=
  match env.parseTime mTime with
  | some t => now - t < 1000 * 60 * 10
  | none => false

/-- The handler's local `matchesExpectedSignature`:
`Webhook.verifyMessage(secret, mId + mTime + body) == req.headers.get('Twitch-Eventsub-Message-Signature')`.
A string never loosely equals `null`, so an absent header never matches. -/
def matchesSignature (env : JsEnv) (secret : String) (req : ServerRequest)
    (mId mTime : String) : Bool :=
  req.signature = some (Webhook.verifyMessage env secret (mId ++ mTime ++ req.body))

/-- `Client.handleWebhookWithoutResponse(req)`, mod.ts lines 242–298,
embedded step for step.  `now` is the value of `+new Date()`.  The result
is the returned `Response | null` (`null` = "not recognized as Twitch
traffic") paired with the updated client state, or the JS exception the
call throws. -/
def Client.handleWebhookWithoutResponse (env : JsEnv) (now : Int) (c : Client)
    (req : ServerRequest) : Except JsThrow (Option Response × Client) :=
  -- if (!this.#webhookSecret) throw Error("A webhook secret wasn't provided…")
  if c.webhookSecret = "" then
    .error .noSecret
  else
    -- const mId/mType/mTime = req.headers.get(…); body = decode(readAll(req.body))
    match req.mId, req.mType, req.mTime with
    | some mId, some mType, some mTime =>
      -- if (!(mId && mType && mTime)) return null   (empty strings are falsy)
      if mId = "" ∨ mType = "" ∨ mTime = "" then
        .ok (none, c)
      -- if (this.#seenWebhooks.has(mId)) return { status: 204 }
      else if mId ∈ c.seenWebhooks then
        .ok (some ⟨204, none⟩, c)
      else
        -- const isStillValid = +new Date() - +new Date(mTime) < 1000 * 60 * 10
        let isStillValid : Bool := isStillValidAt env now mTime
        -- Webhook.verifyMessage(secret, mId + mTime + body) == req.headers.get('…-Signature')
        let matchesExpectedSignature : Bool :=
          matchesSignature env c.webhookSecret req mId mTime
        -- if (!(isStillValid && matchesExpectedSignature)) return { status: 403 }
        if !(isStillValid && matchesExpectedSignature) then
          .ok (some ⟨403, none⟩, c)
        else
          -- const json = JSON.parse(body)
          match env.parseJson req.body with
          | none => .error .jsonError
          | some json =>
            -- switch (mType) { … }
            if mType = "webhook_callback_verification" then
              match jsGet json "challenge" with
              | .error e => .error e
              | .ok challenge => .ok (some ⟨200, some challenge⟩, c)
            else if mType = "notification" then
              .ok (some ⟨200, none⟩,
                { c with webhookQ := c.webhookQ.push (mkNotifItem req json),
                         seenWebhooks := insertSeen mId c.seenWebhooks })
            else
              .ok (none, c)
    | _, _, _ => .ok (none, c)

/-! ## The `Webhook` class's own state and async iterator (Webhook.ts) -/

/-- The fields `_updateOwnValuesFromResp` assigns.  They come from dynamic
JSON, so each holds an arbitrary JS value; `createdAt` is the `Date`
object `new Date(sub.created_at)`, kept as its millisecond value (`none` =
Invalid Date). -/
structure WebhookFields where
  id : JsValue
  status : JsValue
  type : JsValue
  condition : JsValue
  createdAt : Option Int
  transport : JsValue

/-- `new Date(v)` for the values that can appear here. -/
def jsNewDate (env : JsEnv) : JsValue → Option Int
  | .jstr s => env.parseTime s
  | .jnum n => some n
  | _ => none

/-- `_updateOwnValuesFromResp(sub)`: re-snapshot every field from `sub`.
Property access on an `undefined`/`null` `sub` throws. -/
def updateOwnValuesFromResp (env : JsEnv) (sub : JsValue) :
    Except JsThrow WebhookFields := do
  let i ← jsGet sub "id"
  let s ← jsGet sub "status"
  let t ← jsGet sub "type"
  let cond ← jsGet sub "condition"
  let ca ← jsGet sub "created_at"
  let tr ← jsGet sub "transport"
  pure { id := i, status := s, type := t, condition := cond,
         createdAt := jsNewDate env ca, transport := tr }

/-- One iteration of the `Webhook` async iterator's loop body
(Webhook.ts lines 87–94):
```
for await (const callback of this.#auto._webhookQ) {
  if (callback.subscription.id === this.id) {
    this._updateOwnValuesFromResp(callback.subscription as WebhookResponse)
    if (callback.event) yield callback.event
  }
}
```
Returns the updated webhook fields and the value yielded to the consumer,
if any, or the JS exception the body throws. -/
def webhookIterStep (env : JsEnv) (w : WebhookFields) (callback : JsValue) :
    Except JsThrow (WebhookFields × Option JsValue) := do
  let sub ← jsGet callback "subscription"
  let sid ← jsGet sub "id"
  if jsStrictEq sid w.id then
    let w' ← updateOwnValuesFromResp env sub
    let ev ← jsGet callback "event"
    if jsTruthy ev then pure (w', some ev) else pure (w', none)
  else
    pure (w, none)


/-! ## Properties of the AsyncQueue transition system -/

open List

theorem append_prefix_append {α : Type} (A : List α) {x y : List α} (h : x <+: y) :
    A ++ x <+: A ++ y := by
  obtain ⟨t, rfl⟩ := h
  exact ⟨t, by rw [List.append_assoc]⟩

theorem prefix_drop {α : Type} {l₁ l₂ : List α} (n : Nat) (h : l₁ <+: l₂) :
    l₁.drop n <+: l₂.drop n := by
  obtain ⟨t, rfl⟩ := h
  by_cases hn : n ≤ l₁.length
  · rw [List.drop_append_of_le_length hn]
    exact ⟨t, rfl⟩
  · push_neg at hn
    rw [List.drop_eq_nil_of_le (le_of_lt hn)]
    exact List.nil_prefix

theorem prefix_flatten_take {α : Type} (L : List (List α)) (n : Nat) :
    (L.take n).flatten <+: L.flatten := by
  conv_rhs => rw [← List.take_append_drop n L]
  rw [List.flatten_append]
  exact ⟨_, rfl⟩

theorem take_getD_prefix_flatten {α : Type} (L : List (List α)) (b i : Nat) (hb : b < L.length) :
    (L.take b).flatten ++ (L.getD b []).take i <+: L.flatten := by
  have h3 : L.getD b [] = L[b] := by
    unfold List.getD
    rw [List.get?_eq_getElem?, List.getElem?_eq_getElem hb]
    rfl
  have h2 : L.take (b+1) = L.take b ++ [L[b]] := by
    rw [List.take_succ, List.getElem?_eq_getElem hb]
    rfl
  have step1 : (L.take b).flatten ++ (L.getD b []).take i <+: (L.take (b+1)).flatten := by
    rw [h2, List.flatten_append, h3]
    refine append_prefix_append _ ?_
    have h4 : (List.flatten [L[b]]) = L[b] := by simp
    rw [h4]
    exact List.take_prefix i _
  exact step1.trans (prefix_flatten_take L (b+1))

theorem getD_concat_self {α : Type} (l : List α) (y : α) (d : α) :
    (l ++ [y]).getD l.length d = y := by
  unfold List.getD
  rw [List.get?_eq_getElem?, List.getElem?_concat_length]
  rfl

theorem getD_append_lt {α : Type} (l₁ l₂ : List α) (n : Nat) (h : n < l₁.length) (d : α) :
    (l₁ ++ l₂).getD n d = l₁.getD n d := by
  unfold List.getD
  rw [List.get?_append h]

/-- The per-reader invariant relating a reader's progress to the queue. -/
def ReaderInv {T : Type} (q : AsyncQueue T) (rd : ReaderState T) : Prop :=
  match rd.phase with
  | .waiting _ =>
      rd.base ≤ q.hist.flatten.length ∧ rd.obs <+ q.hist.flatten.drop rd.base
  | .finished =>
      rd.base ≤ q.hist.flatten.length ∧ rd.obs <+ q.hist.flatten.drop rd.base
  | .yielding b i =>
      b < q.allBufs.length ∧ i ≤ (q.bufGet b).length ∧
      rd.base ≤ (q.allBufs.take b).flatten.length ∧
      rd.obs <+ ((q.allBufs.take b).flatten ++ (q.bufGet b).take i).drop rd.base

/-- The global invariant: the bookkeeping log is the concatenation of all
buffers, and every reader satisfies its invariant. -/
def WorldInv {T : Type} (w : QWorld T) : Prop :=
  w.q.log = w.q.hist.flatten ++ w.q.cur ∧ ∀ rd ∈ w.readers, ReaderInv w.q rd

theorem worldInv_init {T : Type} : WorldInv (QWorld.init : QWorld T) := by
  constructor
  · rfl
  · intro rd h
    simp [QWorld.init] at h

theorem readerInv_push {T : Type} (q : AsyncQueue T) (x : T) (rd : ReaderState T)
    (h : ReaderInv q rd) : ReaderInv (q.push x) rd := by
  unfold ReaderInv at h ⊢
  cases hp : rd.phase with
  | waiting g => rw [hp] at h; exact h
  | finished => rw [hp] at h; exact h
  | yielding b i =>
    rw [hp] at h
    obtain ⟨hb, hi, hbase, hobs⟩ := h
    have hlen : (q.push x).allBufs.length = q.allBufs.length := by
      simp [AsyncQueue.push, AsyncQueue.allBufs]
    have hble : b ≤ q.hist.length := by
      simp [AsyncQueue.allBufs] at hb
      omega
    have htake : (q.push x).allBufs.take b = q.allBufs.take b := by
      show (q.hist ++ [q.cur ++ [x]]).take b = (q.hist ++ [q.cur]).take b
      rw [List.take_append_of_le_length hble, List.take_append_of_le_length hble]
    rcases lt_or_eq_of_le hble with hblt | hbeq
    · have hbuf : (q.push x).bufGet b = q.bufGet b := by
        show (q.hist ++ [q.cur ++ [x]]).getD b [] = (q.hist ++ [q.cur]).getD b []
        rw [getD_append_lt _ _ _ hblt, getD_append_lt _ _ _ hblt]
      exact ⟨hlen ▸ hb, hbuf ▸ hi, htake ▸ hbase, htake ▸ hbuf ▸ hobs⟩
    · subst hbeq
      have hbuf : (q.push x).bufGet q.hist.length = q.cur ++ [x] := by
        show (q.hist ++ [q.cur ++ [x]]).getD q.hist.length [] = q.cur ++ [x]
        exact getD_concat_self _ _ _
      have hbuf0 : q.bufGet q.hist.length = q.cur := by
        show (q.hist ++ [q.cur]).getD q.hist.length [] = q.cur
        exact getD_concat_self _ _ _
      rw [hbuf0] at hi hobs
      have htk : (q.cur ++ [x]).take i = q.cur.take i :=
        List.take_append_of_le_length hi
      refine ⟨hlen ▸ hb, ?_, htake ▸ hbase, ?_⟩
      · rw [hbuf]
        simp
        omega
      · rw [htake, hbuf, htk]
        exact hobs

theorem readerInv_endQueue {T : Type} (q : AsyncQueue T) (rd : ReaderState T)
    (h : ReaderInv q rd) : ReaderInv q.endQueue rd := by
  unfold ReaderInv at h ⊢
  cases hp : rd.phase <;> rw [hp] at h <;> exact h


/-- The queue after some reader's `this.#items = []`. -/
def AsyncQueue.clearItems {T : Type} (q : AsyncQueue T) : AsyncQueue T :=
  { q with hist := q.hist ++ [q.cur], cur := [] }

theorem clearItems_hist_flatten {T : Type} (q : AsyncQueue T) :
    q.clearItems.hist.flatten = q.allBufs.flatten := by
  simp [AsyncQueue.clearItems, AsyncQueue.allBufs]

theorem readerInv_clear_other {T : Type} (q : AsyncQueue T) (rd : ReaderState T)
    (h : ReaderInv q rd) : ReaderInv q.clearItems rd := by
  unfold ReaderInv at h ⊢
  have hflat : q.clearItems.hist.flatten = q.hist.flatten ++ q.cur := by
    simp [AsyncQueue.clearItems]
  have hpre : q.hist.flatten <+: q.clearItems.hist.flatten := by
    rw [hflat]
    exact ⟨q.cur, rfl⟩
  cases hp : rd.phase with
  | waiting g =>
    rw [hp] at h
    obtain ⟨h1, h2⟩ := h
    constructor
    · rw [hflat, List.length_append]
      exact le_trans h1 (Nat.le_add_right _ _)
    · exact h2.trans (prefix_drop rd.base hpre).sublist
  | finished =>
    rw [hp] at h
    obtain ⟨h1, h2⟩ := h
    constructor
    · rw [hflat, List.length_append]
      exact le_trans h1 (Nat.le_add_right _ _)
    · exact h2.trans (prefix_drop rd.base hpre).sublist
  | yielding b i =>
    rw [hp] at h
    obtain ⟨hb, hi, hbase, hobs⟩ := h
    have habs : q.clearItems.allBufs = q.allBufs ++ [[]] := by
      simp [AsyncQueue.clearItems, AsyncQueue.allBufs]
    have hbuf : q.clearItems.bufGet b = q.bufGet b := by
      show q.clearItems.allBufs.getD b [] = q.allBufs.getD b []
      rw [habs, getD_append_lt _ _ _ hb]
    have htake : q.clearItems.allBufs.take b = q.allBufs.take b := by
      rw [habs, List.take_append_of_le_length (le_of_lt hb)]
    refine ⟨?_, hbuf ▸ hi, htake ▸ hbase, htake ▸ hbuf ▸ hobs⟩
    rw [habs, List.length_append]
    omega

theorem readerInv_wake {T : Type} (q : AsyncQueue T) (g : Nat) (obs : List T) (base : Nat)
    (h : ReaderInv q ⟨.waiting g, obs, base⟩) :
    ReaderInv q ⟨.yielding q.hist.length 0, obs, base⟩ := by
  unfold ReaderInv at h ⊢
  obtain ⟨h1, h2⟩ := h
  have htake : q.allBufs.take q.hist.length = q.hist := List.take_left q.hist [q.cur]
  refine ⟨?_, Nat.zero_le _, ?_, ?_⟩
  · simp [AsyncQueue.allBufs]
  · rw [htake]
    exact h1
  · rw [htake]
    simpa using h2

theorem readerInv_yieldStep {T : Type} (q : AsyncQueue T) (b i : Nat) (obs : List T) (base : Nat)
    (v : T) (hv : (q.bufGet b).get? i = some v)
    (h : ReaderInv q ⟨.yielding b i, obs, base⟩) :
    ReaderInv q ⟨.yielding b (i + 1), obs ++ [v], base⟩ := by
  unfold ReaderInv at h ⊢
  obtain ⟨hb, hi, hbase, hobs⟩ := h
  obtain ⟨hlt, hget⟩ := List.get?_eq_some.mp hv
  have htk : (q.bufGet b).take (i + 1) = (q.bufGet b).take i ++ [v] := by
    rw [List.take_succ, ← List.get?_eq_getElem?, hv]
    rfl
  refine ⟨hb, hlt, hbase, ?_⟩
  rw [htk, ← List.append_assoc]
  have hble : base ≤ ((q.allBufs.take b).flatten ++ (q.bufGet b).take i).length := by
    rw [List.length_append]
    exact le_trans hbase (Nat.le_add_right _ _)
  rw [List.drop_append_of_le_length hble]
  exact hobs.append (Sublist.refl [v])

theorem readerInv_finish {T : Type} (q : AsyncQueue T) (b i : Nat) (obs : List T) (base : Nat)
    (hge : ¬ i < (q.bufGet b).length)
    (h : ReaderInv q ⟨.yielding b i, obs, base⟩) :
    base ≤ q.clearItems.hist.flatten.length ∧ obs <+ q.clearItems.hist.flatten.drop base := by
  unfold ReaderInv at h
  obtain ⟨hb, hi, hbase, hobs⟩ := h
  push_neg at hge
  have htk : (q.bufGet b).take i = q.bufGet b := List.take_of_length_le hge
  rw [htk] at hobs
  have hpre : (q.allBufs.take b).flatten ++ q.bufGet b <+: q.allBufs.flatten := by
    have h0 := take_getD_prefix_flatten q.allBufs b (q.bufGet b).length hb
    have hbg : (q.allBufs.getD b ([] : List T)) = q.bufGet b := rfl
    rw [hbg, List.take_length] at h0
    exact h0
  constructor
  · rw [clearItems_hist_flatten]
    exact le_trans hbase (List.IsPrefix.length_le (prefix_flatten_take _ b))
  · rw [clearItems_hist_flatten]
    exact hobs.trans (prefix_drop base hpre).sublist
theorem worldInv_step {T : Type} (w : QWorld T) (a : QAct T) (h : WorldInv w) :
    WorldInv (w.step a) := by
  obtain ⟨hlog, hrd⟩ := h
  cases a with
  | push x =>
    refine ⟨?_, ?_⟩
    · show w.q.log ++ [x] = w.q.hist.flatten ++ (w.q.cur ++ [x])
      rw [hlog, List.append_assoc]
    · intro rd hm
      exact readerInv_push _ _ _ (hrd rd hm)
  | endQueue =>
    exact ⟨hlog, fun rd hm => readerInv_endQueue _ _ (hrd rd hm)⟩
  | attach =>
    refine ⟨hlog, ?_⟩
    intro rd hm
    rcases List.mem_append.mp hm with hm' | hm'
    · exact hrd rd hm'
    · rw [List.mem_singleton] at hm'
      subst hm'
      cases hd : w.q.done
      · exact ⟨le_refl _, List.nil_sublist _⟩
      · exact ⟨le_refl _, List.nil_sublist _⟩
  | wake r =>
    simp only [QWorld.step]
    split
    · rename_i rd0 hg
      split
      · rename_i g hph
        split_ifs with hlt
        · refine ⟨hlog, ?_⟩
          intro rd hm
          rcases List.mem_or_eq_of_mem_set hm with hm' | hm'
          · exact hrd rd hm'
          · subst hm'
            have h0 : ReaderInv w.q ⟨ReaderPhase.waiting g, rd0.obs, rd0.base⟩ := by
              rw [← hph]
              exact hrd rd0 (List.get?_mem hg)
            exact readerInv_wake w.q g rd0.obs rd0.base h0
        · exact ⟨hlog, hrd⟩
      · exact ⟨hlog, hrd⟩
    · exact ⟨hlog, hrd⟩
  | yieldStep r =>
    simp only [QWorld.step]
    split
    · rename_i rd0 hg
      split
      · rename_i b i hph
        split
        · rename_i v hv
          refine ⟨hlog, ?_⟩
          intro rd hm
          rcases List.mem_or_eq_of_mem_set hm with hm' | hm'
          · exact hrd rd hm'
          · subst hm'
            have h0 : ReaderInv w.q ⟨ReaderPhase.yielding b i, rd0.obs, rd0.base⟩ := by
              rw [← hph]
              exact hrd rd0 (List.get?_mem hg)
            exact readerInv_yieldStep w.q b i rd0.obs rd0.base v hv h0
        · exact ⟨hlog, hrd⟩
      · exact ⟨hlog, hrd⟩
    · exact ⟨hlog, hrd⟩
  | finishYield r =>
    simp only [QWorld.step]
    split
    · rename_i rd0 hg
      split
      · rename_i b i hph
        split_ifs with hlt hdone
        · exact ⟨hlog, hrd⟩
        · have h0 : ReaderInv w.q ⟨ReaderPhase.yielding b i, rd0.obs, rd0.base⟩ := by
            rw [← hph]
            exact hrd rd0 (List.get?_mem hg)
          have hfin := readerInv_finish w.q b i rd0.obs rd0.base hlt h0
          refine ⟨?_, ?_⟩
          · show w.q.log = (w.q.hist ++ [w.q.cur]).flatten ++ []
            rw [List.append_nil, List.flatten_append, hlog]
            simp
          · intro rd hm
            rcases List.mem_or_eq_of_mem_set hm with hm' | hm'
            · exact readerInv_clear_other w.q rd (hrd rd hm')
            · subst hm'
              exact hfin
        · have h0 : ReaderInv w.q ⟨ReaderPhase.yielding b i, rd0.obs, rd0.base⟩ := by
            rw [← hph]
            exact hrd rd0 (List.get?_mem hg)
          have hfin := readerInv_finish w.q b i rd0.obs rd0.base hlt h0
          refine ⟨?_, ?_⟩
          · show w.q.log = (w.q.hist ++ [w.q.cur]).flatten ++ []
            rw [List.append_nil, List.flatten_append, hlog]
            simp
          · intro rd hm
            rcases List.mem_or_eq_of_mem_set hm with hm' | hm'
            · exact readerInv_clear_other w.q rd (hrd rd hm')
            · subst hm'
              exact hfin
      · exact ⟨hlog, hrd⟩
    · exact ⟨hlog, hrd⟩

theorem worldInv_run {T : Type} (w : QWorld T) (acts : List (QAct T)) (h : WorldInv w) :
    WorldInv (w.run acts) := by
  induction acts generalizing w with
  | nil => exact h
  | cons a rest ih => exact ih (w.step a) (worldInv_step w a h)
theorem obs_sublist_log {T : Type} {w : QWorld T} (h : WorldInv w) {rd : ReaderState T}
    (hm : rd ∈ w.readers) : rd.obs <+ w.q.log.drop rd.base := by
  obtain ⟨hlog, hrd⟩ := h
  have hi := hrd rd hm
  unfold ReaderInv at hi
  have hflat : w.q.hist.flatten <+: w.q.log := by
    rw [hlog]
    exact ⟨_, rfl⟩
  cases hp : rd.phase with
  | waiting g =>
    rw [hp] at hi
    exact hi.2.trans (prefix_drop rd.base hflat).sublist
  | finished =>
    rw [hp] at hi
    exact hi.2.trans (prefix_drop rd.base hflat).sublist
  | yielding b i =>
    rw [hp] at hi
    obtain ⟨hb, hii, hbase, hobs⟩ := hi
    have hfl : w.q.allBufs.flatten = w.q.log := by
      rw [hlog]
      simp [AsyncQueue.allBufs]
    have hpre : (w.q.allBufs.take b).flatten ++ (w.q.bufGet b).take i <+: w.q.log := by
      rw [← hfl]
      exact take_getD_prefix_flatten w.q.allBufs b i hb
    exact hobs.trans (prefix_drop rd.base hpre).sublist

theorem get?_set_same_base {T : Type} (l : List (ReaderState T)) (r idx : Nat)
    (rd rd0 v : ReaderState T) (h : l.get? idx = some rd) (hg : l.get? r = some rd0)
    (hvb : v.base = rd0.base) :
    ∃ rd', (l.set r v).get? idx = some rd' ∧ rd'.base = rd.base := by
  by_cases hir : idx = r
  · subst hir
    have heq : rd = rd0 := Option.some.inj (h.symm.trans hg)
    refine ⟨v, ?_, by rw [hvb, heq]⟩
    have hlt : idx < l.length := (List.get?_eq_some.mp h).1
    rw [List.get?_set_eq]
    simp [List.getElem?_eq_getElem hlt]
  · exact ⟨rd, by rw [List.get?_set_ne _ _ (fun he => hir he.symm)]; exact h, rfl⟩

theorem step_get_base {T : Type} (w : QWorld T) (a : QAct T) (idx : Nat) (rd : ReaderState T)
    (h : w.readers.get? idx = some rd) :
    ∃ rd', (w.step a).readers.get? idx = some rd' ∧ rd'.base = rd.base := by
  cases a with
  | push x => exact ⟨rd, h, rfl⟩
  | endQueue => exact ⟨rd, h, rfl⟩
  | attach =>
    refine ⟨rd, ?_, rfl⟩
    have hlt : idx < w.readers.length := (List.get?_eq_some.mp h).1
    show (w.readers ++ _).get? idx = some rd
    rw [List.get?_append hlt]
    exact h
  | wake r =>
    simp only [QWorld.step]
    split
    · rename_i rd0 hg
      split
      · rename_i g hph
        split_ifs with hlt
        · exact get?_set_same_base _ r idx rd rd0 _ h hg rfl
        · exact ⟨rd, h, rfl⟩
      · exact ⟨rd, h, rfl⟩
    · exact ⟨rd, h, rfl⟩
  | yieldStep r =>
    simp only [QWorld.step]
    split
    · rename_i rd0 hg
      split
      · rename_i b i hph
        split
        · rename_i v hv
          exact get?_set_same_base _ r idx rd rd0 _ h hg rfl
        · exact ⟨rd, h, rfl⟩
      · exact ⟨rd, h, rfl⟩
    · exact ⟨rd, h, rfl⟩
  | finishYield r =>
    simp only [QWorld.step]
    split
    · rename_i rd0 hg
      split
      · rename_i b i hph
        split_ifs with hlt hdone
        · exact ⟨rd, h, rfl⟩
        · exact get?_set_same_base _ r idx rd rd0 _ h hg rfl
        · exact get?_set_same_base _ r idx rd rd0 _ h hg rfl
      · exact ⟨rd, h, rfl⟩
    · exact ⟨rd, h, rfl⟩

theorem run_get_base {T : Type} (w : QWorld T) (acts : List (QAct T)) (idx : Nat)
    (rd : ReaderState T) (h : w.readers.get? idx = some rd) :
    ∃ rd', (w.run acts).readers.get? idx = some rd' ∧ rd'.base = rd.base := by
  induction acts generalizing w rd with
  | nil => exact ⟨rd, h, rfl⟩
  | cons a rest ih =>
    obtain ⟨rd1, h1, hb1⟩ := step_get_base w a idx rd h
    obtain ⟨rd2, h2, hb2⟩ := ih (w.step a) rd1 h1
    exact ⟨rd2, h2, hb2.trans hb1⟩


/-! ## Concrete environment and client used by witnesses and counterexamples

`demoEnv.hmacHex` is a stand-in keyed digest (the real HMAC-SHA256 lives in
the Deno std library, outside this repository); `demoEnv.parseJson` agrees
with `JSON.parse` on the exact strings fed to it below; `demoEnv.parseTime`
maps the one timestamp string used below to its millisecond value, as
`new Date` would. -/

def demoEnv : JsEnv :=
  { hmacHex := fun secret msg => secret ++ ":" ++ msg,
    parseJson := fun s =>
      if s = "\x7b\x7d" then some (.jobj [])
      else if s = "\x7b\"challenge\":\"abc123\"\x7d" then
        some (.jobj [("challenge", .jstr "abc123")])
      else none,
    parseTime := fun s => if s = "500" then some 500 else none }

/-- A client configured with a webhook secret, nothing seen, empty queue. -/
def demoClient : Client :=
  { webhookSecret := "s3cr3t", seenWebhooks := [], webhookQ := AsyncQueue.init }

/-- Self-membership after a `Set.add`. -/
theorem self_mem_insertSeen (x : String) (s : List String) : x ∈ insertSeen x s := by
  unfold insertSeen
  split
  · assumption
  · simp

/-! ## Claims -/

/-- C1: the spec says iterating a `WebhookRegistration`'s event stream
re-snapshots the registration from each matching queue item and yields its
event payload.  The code cannot do this: every item the receiver enqueues
has the shape `{request, response, data}` (the subscription snapshot lives
at `data.subscription`), but `Webhook[Symbol.asyncIterator]` dereferences
`callback.subscription.id`.  `callback.subscription` is `undefined`, so the
very first item makes the iterator throw a `TypeError` — for every
environment, every registration state, and every enqueued item. -/
theorem webhookIterStep_throws_on_enqueued_item (env : JsEnv) (w : WebhookFields)
    (req : ServerRequest) (json : JsValue) :
    webhookIterStep env w (mkNotifItem req json) = .error .typeError := by
  rfl

/-- C2 (counterexample): the queue is not a broadcast log and a reader can
miss an item.  Both readers attach before any push.  Reader 0 is woken
promptly each time and observes `[1, 2]`… then clears `#items`.  Reader 1
was woken while `1` was buffered, but its consumer is slow: when it resumes
it still iterates the abandoned array `[1]`, and its own `this.#items = []`
discards the pushed `2` (which reader 0 did observe).  After a further push
it observes `3`: its sequence is `[1, 3]` while the pushes were
`[1, 2, 3]` — item `2` is skipped although it was delivered to reader 0. -/
theorem asyncQueue_not_broadcast_counterexample :
    (QWorld.init.run [QAct.attach, QAct.attach, QAct.push 1, QAct.wake 0, QAct.wake 1,
        QAct.yieldStep 0, QAct.finishYield 0, QAct.push 2, QAct.wake 0, QAct.yieldStep 0,
        QAct.finishYield 0, QAct.yieldStep 1, QAct.finishYield 1, QAct.push 3, QAct.wake 1,
        QAct.yieldStep 1]).q.log = [1, 2, 3] ∧
    (QWorld.init.run [QAct.attach, QAct.attach, QAct.push 1, QAct.wake 0, QAct.wake 1,
        QAct.yieldStep 0, QAct.finishYield 0, QAct.push 2, QAct.wake 0, QAct.yieldStep 0,
        QAct.finishYield 0, QAct.yieldStep 1, QAct.finishYield 1, QAct.push 3, QAct.wake 1,
        QAct.yieldStep 1]).readers.map (fun r => r.obs) = [[1, 2], [1, 3]] := by
  decide

/-- C2 (amended): what does hold of the `AsyncQueue` under every
interleaving: each reader's observation sequence is an order-preserving
subsequence of the push sequence — items are never reordered, duplicated
or invented — but with several readers an item observed by one reader can
be missed by another, so the full-sequence broadcast property fails. -/
theorem asyncQueue_reader_obs_sublist_of_log {T : Type} (acts : List (QAct T))
    (rd : ReaderState T) (hm : rd ∈ (QWorld.init.run acts).readers) :
    rd.obs <+ (QWorld.init.run acts).q.log :=
  (obs_sublist_log (worldInv_run _ acts worldInv_init) hm).trans (List.drop_sublist _ _)

/-- C2 (witness): the amended theorem evaluated on a concrete schedule. -/
theorem asyncQueue_reader_obs_sublist_of_log_witness :
    (⟨ReaderPhase.yielding 0 1, [1], 0⟩ : ReaderState Nat).obs
      <+ (QWorld.init.run [QAct.attach, QAct.push 1, QAct.wake 0, QAct.yieldStep 0]).q.log :=
  asyncQueue_reader_obs_sublist_of_log _ _ (by decide)

/-- C3 (counterexample): a `revocation` message with all four headers, a
fresh timestamp, a valid signature and an unseen id.  The claim says it is
treated as a payload-less notification: snapshot delivered, id marked seen,
success acknowledged.  The code's `switch` has no `'revocation'` case, so
the handler returns `null` (not recognized) and the state — replay guard
and queue alike — is exactly the one passed in. -/
theorem revocation_not_handled_counterexample :
    Client.handleWebhookWithoutResponse demoEnv 1000 demoClient
      ⟨some "m3", some "revocation", some "500",
       some (Webhook.verifyMessage demoEnv "s3cr3t" ("m3" ++ "500" ++ "\x7b\x7d")), "\x7b\x7d"⟩
      = .ok (none, demoClient) := by
  rfl

/-- C3 (amended): for every authenticated, fresh, unseen `revocation`
message whose body parses, the handler falls through its message-type
switch: it returns `null` (NotRecognized), enqueues nothing and marks
nothing seen (the client state is returned unchanged). -/
theorem revocation_returns_null (env : JsEnv) (now : Int) (c : Client) (req : ServerRequest)
    (i tm : String)
    (hsec : c.webhookSecret ≠ "")
    (hid : req.mId = some i) (hty : req.mType = some "revocation") (htm : req.mTime = some tm)
    (hi : i ≠ "") (htm' : tm ≠ "")
    (hseen : i ∉ c.seenWebhooks)
    (hfresh : isStillValidAt env now tm = true)
    (hsig : matchesSignature env c.webhookSecret req i tm = true)
    (hjson : ∃ j, env.parseJson req.body = some j) :
    Client.handleWebhookWithoutResponse env now c req = .ok (none, c) := by
  obtain ⟨j, hj⟩ := hjson
  unfold Client.handleWebhookWithoutResponse
  rw [hid, hty, htm]
  simp [hsec, hi, htm', hseen, hfresh, hsig, hj]

/-- C3 (witness): the amended theorem applied at the counterexample's input. -/
theorem revocation_returns_null_witness :
    Client.handleWebhookWithoutResponse demoEnv 1000 demoClient
      ⟨some "m3", some "revocation", some "500",
       some (Webhook.verifyMessage demoEnv "s3cr3t" ("m3" ++ "500" ++ "\x7b\x7d")), "\x7b\x7d"⟩
      = .ok (none, demoClient) :=
  revocation_returns_null demoEnv 1000 demoClient _ "m3" "500" (by decide) rfl rfl rfl
    (by decide) (by decide) (by decide) (by decide) (by decide) ⟨_, rfl⟩

/-- C4 (counterexample): a request presenting message id, type and
timestamp but no signature header, on a configured client with nothing
seen.  The claim says a missing signature header yields `NotRecognized`;
the code only tests the other three headers, so the request falls through
to signature comparison, which never matches `null`, and the handler
answers `403` instead of `null`. -/
theorem missing_signature_rejected_403_counterexample :
    Client.handleWebhookWithoutResponse demoEnv 1000 demoClient
      ⟨some "m4", some "notification", some "500", none, "\x7b\x7d"⟩
      = .ok (some ⟨403, none⟩, demoClient) := by
  rfl

/-- C4 (amended): only the message id, message type and timestamp headers
are presence-checked (a missing or empty one yields `null` with no queue or
replay-guard mutation); a missing signature header instead fails the
signature comparison and — for an unseen id — is rejected with `403`,
likewise without mutation. -/
theorem missing_envelope_fields_outcomes (env : JsEnv) (now : Int) (c : Client)
    (req : ServerRequest) (hsec : c.webhookSecret ≠ "") :
    ((req.mId = none ∨ req.mId = some "" ∨ req.mType = none ∨ req.mType = some "" ∨
      req.mTime = none ∨ req.mTime = some "") →
      Client.handleWebhookWithoutResponse env now c req = .ok (none, c)) ∧
    (∀ i ty tm, req.mId = some i → req.mType = some ty → req.mTime = some tm →
      i ≠ "" → ty ≠ "" → tm ≠ "" → req.signature = none → i ∉ c.seenWebhooks →
      Client.handleWebhookWithoutResponse env now c req = .ok (some ⟨403, none⟩, c)) := by
  obtain ⟨mi, mt, mtm, sg, bd⟩ := req
  constructor
  · intro h
    unfold Client.handleWebhookWithoutResponse
    cases mi <;> cases mt <;> cases mtm <;> simp_all [hsec]
  · rintro i ty tm rfl rfl rfl h4 h5 h6 rfl h8
    unfold Client.handleWebhookWithoutResponse
    simp [hsec, h4, h5, h6, h8, matchesSignature]

/-- C4 (witness): both conclusions evaluated at concrete requests. -/
theorem missing_envelope_fields_outcomes_witness :
    Client.handleWebhookWithoutResponse demoEnv 1000 demoClient
      ⟨none, some "notification", some "500", some "sig", "\x7b\x7d"⟩ = .ok (none, demoClient) ∧
    Client.handleWebhookWithoutResponse demoEnv 1000 demoClient
      ⟨some "m4", some "notification", some "500", none, "\x7b\x7d"⟩
      = .ok (some ⟨403, none⟩, demoClient) :=
  ⟨(missing_envelope_fields_outcomes demoEnv 1000 demoClient _ (by decide)).1 (Or.inl rfl),
   (missing_envelope_fields_outcomes demoEnv 1000 demoClient _ (by decide)).2
     "m4" "notification" "500" rfl rfl rfl (by decide) (by decide) (by decide) rfl (by decide)⟩


/-- C5: duplicate suppression.  The first request is a fresh, correctly
signed `notification` with an unseen id: handling it answers `200` and
appends exactly one item to the queue log.  Any second request bearing the
same message id (its other three headers merely present) is answered
`204` with no body and leaves the state untouched — and since its
timestamp and signature are unconstrained here, the duplicate answer is
decided before the freshness and signature checks. -/
theorem duplicate_messageId_single_append_and_reack (env : JsEnv) (now1 now2 : Int)
    (c : Client) (i tm body : String) (json : JsValue)
    (req1 req2 : ServerRequest) (c' : Client)
    (hsec : c.webhookSecret ≠ "") (hi : i ≠ "") (htm : tm ≠ "")
    (hseen : i ∉ c.seenWebhooks)
    (hfresh : isStillValidAt env now1 tm = true)
    (hjson : env.parseJson body = some json)
    (hreq1 : req1 = ⟨some i, some "notification", some tm,
        some (Webhook.verifyMessage env c.webhookSecret (i ++ tm ++ body)), body⟩)
    (hc' : c' = { c with webhookQ := (c.webhookQ.push (mkNotifItem req1 json)), seenWebhooks := (insertSeen i c.seenWebhooks) })
    (h2id : req2.mId = some i)
    (h2ty : ∃ ty2, req2.mType = some ty2 ∧ ty2 ≠ "")
    (h2tm : ∃ tm2, req2.mTime = some tm2 ∧ tm2 ≠ "") :
    Client.handleWebhookWithoutResponse env now1 c req1 = .ok (some ⟨200, none⟩, c') ∧
    c'.webhookQ.log = c.webhookQ.log ++ [mkNotifItem req1 json] ∧
    Client.handleWebhookWithoutResponse env now2 c' req2 = .ok (some ⟨204, none⟩, c') := by
  obtain ⟨ty2, h2ty, h2ty'⟩ := h2ty
  obtain ⟨tm2, h2tm, h2tm'⟩ := h2tm
  subst hc'
  subst hreq1
  refine ⟨?_, ?_, ?_⟩
  · unfold Client.handleWebhookWithoutResponse
    simp [hsec, hi, htm, hseen, hfresh, matchesSignature, hjson]
  · simp [AsyncQueue.push]
  · unfold Client.handleWebhookWithoutResponse
    rw [h2id, h2ty, h2tm]
    simp [hsec, hi, h2ty', h2tm', self_mem_insertSeen]

/-- The first request of the C5 witness. -/
def req5a : ServerRequest :=
  ⟨some "m5", some "notification", some "500",
   some (Webhook.verifyMessage demoEnv "s3cr3t" ("m5" ++ "500" ++ "\x7b\x7d")), "\x7b\x7d"⟩

/-- The duplicate of the C5 witness: same id, stale garbage timestamp, no
signature header at all — still answered 204. -/
def req5b : ServerRequest :=
  ⟨some "m5", some "notification", some "junk", none, "junk"⟩

/-- The client state after the C5 witness's first request. -/
def client5 : Client :=
  { demoClient with webhookQ := (demoClient.webhookQ.push (mkNotifItem req5a (.jobj []))), seenWebhooks := (insertSeen "m5" demoClient.seenWebhooks) }

/-- C5 (witness): the theorem evaluated at a concrete pair of requests. -/
theorem duplicate_messageId_single_append_and_reack_witness :
    Client.handleWebhookWithoutResponse demoEnv 1000 demoClient req5a
      = .ok (some ⟨200, none⟩, client5) ∧
    client5.webhookQ.log = demoClient.webhookQ.log ++ [mkNotifItem req5a (.jobj [])] ∧
    Client.handleWebhookWithoutResponse demoEnv 999999999 client5 req5b
      = .ok (some ⟨204, none⟩, client5) :=
  duplicate_messageId_single_append_and_reack demoEnv 1000 999999999 demoClient
    "m5" "500" "\x7b\x7d" (.jobj []) req5a req5b client5
    (by decide) (by decide) (by decide) (by decide) (by decide) rfl rfl rfl rfl
    ⟨"notification", rfl, by decide⟩ ⟨"junk", rfl, by decide⟩

/-- C6 (counterexample): one item is pushed into a fresh queue with no
readers; a reader then attaches, and a second item is pushed.  The wake
captures the still-unconsumed buffer, so the late reader observes `[1, 2]`
— including item `1`, which predates its attachment.  The claim said it
must never observe any pre-attachment item. -/
theorem late_attach_sees_buffered_counterexample :
    (QWorld.init.run [QAct.push 1]).q.log = [1] ∧
    (QWorld.init.run [QAct.push 1, QAct.attach, QAct.push 2, QAct.wake 0,
        QAct.yieldStep 0, QAct.yieldStep 0]).readers.map (fun r => r.obs) = [[1, 2]] := by
  decide

/-- C6 (amended): the late-attachment guarantee holds only when the
internal buffer is empty at attach time (every earlier item already
consumed and cleared): a reader attached at such a point observes, in
order, only a subsequence of the items pushed after its attachment —
`log.drop` of the attach-time log length is exactly the post-attach push
sequence.  Items still buffered at attachment are, contrary to the claim,
delivered to the late reader (see the counterexample). -/
theorem late_attach_reader_obs_bound {T : Type} (acts1 acts2 : List (QAct T))
    (rd : ReaderState T)
    (hcur : (QWorld.init.run acts1).q.cur = [])
    (hget : (((QWorld.init.run acts1).step QAct.attach).run acts2).readers.get?
        (QWorld.init.run acts1).readers.length = some rd) :
    rd.obs <+ (((QWorld.init.run acts1).step QAct.attach).run acts2).q.log.drop
        (QWorld.init.run acts1).q.log.length := by
  have hinv1 : WorldInv (QWorld.init.run acts1) := worldInv_run _ acts1 worldInv_init
  have hinv2 : WorldInv (((QWorld.init.run acts1).step QAct.attach).run acts2) :=
    worldInv_run _ acts2 (worldInv_step _ _ hinv1)
  have hmem : rd ∈ (((QWorld.init.run acts1).step QAct.attach).run acts2).readers :=
    List.get?_mem hget
  have hsub := obs_sublist_log hinv2 hmem
  have hget0 : ((QWorld.init.run acts1).step QAct.attach).readers.get?
      (QWorld.init.run acts1).readers.length
      = some ⟨if (QWorld.init.run acts1).q.done = true then ReaderPhase.finished
              else ReaderPhase.waiting (QWorld.init.run acts1).q.gen, [],
              (QWorld.init.run acts1).q.hist.flatten.length⟩ := by
    simp only [QWorld.step]
    rw [List.get?_eq_getElem?, List.getElem?_concat_length]
  obtain ⟨rd', hget', hbase'⟩ := run_get_base _ acts2 _ _ hget0
  rw [hget'] at hget
  have hrdeq : rd' = rd := Option.some.inj hget
  have hlen : (QWorld.init.run acts1).q.log.length
      = (QWorld.init.run acts1).q.hist.flatten.length := by
    have h1 := hinv1.1
    rw [h1, hcur, List.append_nil]
  have hb2 : rd.base = (QWorld.init.run acts1).q.hist.flatten.length := by
    rw [← hrdeq]
    exact hbase'
  rw [hlen, ← hb2]
  exact hsub

/-- C6 (witness): the amended theorem on a concrete schedule: the first
reader drains item 5 and clears the buffer, a second reader attaches, item
7 is pushed, and the late reader observes exactly `[7]` — a subsequence of
the post-attach pushes. -/
theorem late_attach_reader_obs_bound_witness :
    (⟨ReaderPhase.yielding 1 1, [7], 1⟩ : ReaderState Nat).obs
      <+ (((QWorld.init.run [QAct.attach, QAct.push 5, QAct.wake 0, QAct.yieldStep 0,
            QAct.finishYield 0]).step QAct.attach).run
            [QAct.push 7, QAct.wake 1, QAct.yieldStep 1]).q.log.drop
          (QWorld.init.run [QAct.attach, QAct.push 5, QAct.wake 0, QAct.yieldStep 0,
            QAct.finishYield 0]).q.log.length :=
  late_attach_reader_obs_bound _ _ _ (by decide) (by decide)


/-- C7 (counterexample): a configured client (secret `"s3cr3t"`, not
empty) and a correctly signed, fresh, unseen request whose body is not
JSON.  The handler passes all authentication steps and then throws from
`JSON.parse` — a raise on a per-message condition, contradicting the claim
that it raises only when no signing secret was configured. -/
theorem raises_on_unparseable_body_counterexample :
    demoClient.webhookSecret ≠ "" ∧
    Client.handleWebhookWithoutResponse demoEnv 1000 demoClient
      ⟨some "m7", some "notification", some "500",
       some (Webhook.verifyMessage demoEnv "s3cr3t" ("m7" ++ "500" ++ "oops")), "oops"⟩
      = .error .jsonError :=
  ⟨by decide, by rfl⟩

/-- C7 (amended): exactly when the handler raises.  It throws if and only
if either no signing secret is configured, or the message has passed every
per-message check (headers present and non-empty, id unseen, timestamp
fresh, signature valid) and then either its body fails JSON parsing
(`SyntaxError`) or it is a verification challenge whose parsed body is
`null` (`TypeError` reading `.challenge`).  In particular missing headers,
duplicates, stale timestamps and bad signatures never raise. -/
theorem handle_raises_characterization (env : JsEnv) (now : Int) (c : Client)
    (req : ServerRequest) :
    (∃ e, Client.handleWebhookWithoutResponse env now c req = .error e) ↔
      (c.webhookSecret = "" ∨
        ∃ i ty tm, req.mId = some i ∧ req.mType = some ty ∧ req.mTime = some tm ∧
          i ≠ "" ∧ ty ≠ "" ∧ tm ≠ "" ∧ i ∉ c.seenWebhooks ∧
          isStillValidAt env now tm = true ∧
          matchesSignature env c.webhookSecret req i tm = true ∧
          (env.parseJson req.body = none ∨
            (ty = "webhook_callback_verification" ∧
              (env.parseJson req.body = some .undefined ∨ env.parseJson req.body = some .jnull)))) := by
  constructor
  · rintro ⟨e, h⟩
    by_cases hs : c.webhookSecret = ""
    · exact Or.inl hs
    · right
      obtain ⟨mi, mt, mtm, sg, bd⟩ := req
      unfold Client.handleWebhookWithoutResponse at h
      cases mi <;> cases mt <;> cases mtm <;> simp [hs] at h
      rename_i i ty tm
      split_ifs at h with h1 h2 h3 hc hn
      · push_neg at h1
        obtain ⟨hi, hty', htm'⟩ := h1
        rw [not_or] at h3
        obtain ⟨hv, hm⟩ := h3
        rw [Bool.not_eq_false] at hv hm
        refine ⟨i, ty, tm, rfl, rfl, rfl, hi, hty', htm', h2, hv, hm, ?_⟩
        rcases hpj : env.parseJson bd with _ | j
        · exact Or.inl rfl
        · rw [hpj] at h
          right
          refine ⟨hc, ?_⟩
          rcases hg : jsGet j "challenge" with e' | v
          · cases j <;> simp [jsGet] at hg <;> simp
          · simp [hg] at h
      · push_neg at h1
        obtain ⟨hi, hty', htm'⟩ := h1
        rw [not_or] at h3
        obtain ⟨hv, hm⟩ := h3
        rw [Bool.not_eq_false] at hv hm
        refine ⟨i, ty, tm, rfl, rfl, rfl, hi, hty', htm', h2, hv, hm, ?_⟩
        rcases hpj : env.parseJson bd with _ | j
        · exact Or.inl rfl
        · rw [hpj] at h
          simp at h
      · push_neg at h1
        obtain ⟨hi, hty', htm'⟩ := h1
        rw [not_or] at h3
        obtain ⟨hv, hm⟩ := h3
        rw [Bool.not_eq_false] at hv hm
        refine ⟨i, ty, tm, rfl, rfl, rfl, hi, hty', htm', h2, hv, hm, ?_⟩
        rcases hpj : env.parseJson bd with _ | j
        · exact Or.inl rfl
        · rw [hpj] at h
          simp at h
  · rintro (hs | ⟨i, ty, tm, hid, hty, htm, hi, hty', htm', hseen, hvalid, hsig, hrest⟩)
    · refine ⟨.noSecret, ?_⟩
      unfold Client.handleWebhookWithoutResponse
      rw [if_pos hs]
    · by_cases hs : c.webhookSecret = ""
      · refine ⟨.noSecret, ?_⟩
        unfold Client.handleWebhookWithoutResponse
        rw [if_pos hs]
      · unfold Client.handleWebhookWithoutResponse
        rw [hid, hty, htm]
        rcases hrest with hpj | ⟨hc, hnull⟩
        · refine ⟨.jsonError, ?_⟩
          simp [hs, hi, hty', htm', hseen, hvalid, hsig, hpj]
        · subst hc
          rcases hnull with hpj | hpj
          · refine ⟨.typeError, ?_⟩
            simp [hs, hi, hty', htm', hseen, hvalid, hsig, hpj, jsGet]
          · refine ⟨.typeError, ?_⟩
            simp [hs, hi, hty', htm', hseen, hvalid, hsig, hpj, jsGet]

/-- C8: the authentication tag and its use.  First conjunct: the tag the
handler compares against is `"sha256=" ++ hex-HMAC(secret, messageId ++
timestamp ++ rawBody)` — prefix and concatenation order exactly as the
sender constructs it (the hex digest itself is the Deno std library's
HMAC-SHA256, an environment parameter here).  Second conjunct: an unseen,
fresh request whose presented signature differs from that tag (including a
missing header) is answered `403` with the client state — queue included —
returned unchanged. -/
theorem signature_tag_format_and_mismatch_rejected (env : JsEnv) (now : Int) (c : Client)
    (req : ServerRequest) (i tm : String)
    (hsec : c.webhookSecret ≠ "")
    (hid : req.mId = some i) (hty : ∃ ty, req.mType = some ty ∧ ty ≠ "")
    (htm : req.mTime = some tm)
    (hi : i ≠ "") (htm' : tm ≠ "") (hseen : i ∉ c.seenWebhooks)
    (_hfresh : isStillValidAt env now tm = true)
    (hbad : req.signature ≠ some (Webhook.verifyMessage env c.webhookSecret (i ++ tm ++ req.body))) :
    Webhook.verifyMessage env c.webhookSecret (i ++ tm ++ req.body)
        = "sha256=" ++ env.hmacHex c.webhookSecret (i ++ tm ++ req.body) ∧
    Client.handleWebhookWithoutResponse env now c req = .ok (some ⟨403, none⟩, c) := by
  obtain ⟨ty, hty, hty'⟩ := hty
  refine ⟨rfl, ?_⟩
  unfold Client.handleWebhookWithoutResponse
  rw [hid, hty, htm]
  simp [hsec, hi, hty', htm', hseen, matchesSignature, hbad]

/-- C8 (witness): a one-character-off signature on an otherwise valid
request is answered 403 without mutation. -/
theorem signature_tag_format_and_mismatch_rejected_witness :
    Webhook.verifyMessage demoEnv "s3cr3t" ("m8" ++ "500" ++ "\x7b\x7d")
        = "sha256=" ++ demoEnv.hmacHex "s3cr3t" ("m8" ++ "500" ++ "\x7b\x7d") ∧
    Client.handleWebhookWithoutResponse demoEnv 1000 demoClient
      ⟨some "m8", some "notification", some "500", some "sha256=bogus", "\x7b\x7d"⟩
      = .ok (some ⟨403, none⟩, demoClient) :=
  signature_tag_format_and_mismatch_rejected demoEnv 1000 demoClient
    ⟨some "m8", some "notification", some "500", some "sha256=bogus", "\x7b\x7d"⟩
    "m8" "500" (by decide) rfl ⟨"notification", rfl, by decide⟩ rfl
    (by decide) (by decide) (by decide) (by decide) (by decide)


/-- C9: the freshness window with `maxAge` = `1000 * 60 * 10` ms.  For an
unseen, correctly signed request whose timestamp parses to `ts`: if
`now - ts ≥ maxAge` (in particular at exactly `maxAge`) the handler
answers `403` with no state change; if `now - ts < maxAge` — even one
millisecond inside — the freshness check passes and no `403` can be
produced (the one `403` exit is the combined freshness/signature gate). -/
theorem freshness_boundary (env : JsEnv) (now : Int) (c : Client) (req : ServerRequest)
    (i ty tm : String) (ts : Int)
    (hsec : c.webhookSecret ≠ "")
    (hid : req.mId = some i) (hty : req.mType = some ty) (htm : req.mTime = some tm)
    (hi : i ≠ "") (hty' : ty ≠ "") (htm' : tm ≠ "")
    (hseen : i ∉ c.seenWebhooks)
    (hts : env.parseTime tm = some ts)
    (hsig : matchesSignature env c.webhookSecret req i tm = true) :
    (now - ts ≥ 1000 * 60 * 10 →
      Client.handleWebhookWithoutResponse env now c req = .ok (some ⟨403, none⟩, c)) ∧
    (now - ts < 1000 * 60 * 10 →
      ∀ resp c', Client.handleWebhookWithoutResponse env now c req = .ok (some resp, c') →
        resp.status ≠ 403) := by
  constructor
  · intro hstale
    have hvalid : isStillValidAt env now tm = false := by
      unfold isStillValidAt
      rw [hts]
      simp
      omega
    unfold Client.handleWebhookWithoutResponse
    rw [hid, hty, htm]
    simp [hsec, hi, hty', htm', hseen, hvalid]
  · intro hfr resp c' h
    have hvalid : isStillValidAt env now tm = true := by
      unfold isStillValidAt
      rw [hts]
      simp
      omega
    unfold Client.handleWebhookWithoutResponse at h
    rw [hid, hty, htm] at h
    simp [hsec, hi, hty', htm', hseen, hvalid, hsig] at h
    rcases hpj : env.parseJson req.body with _ | j
    · rw [hpj] at h
      simp at h
    · rw [hpj] at h
      simp at h
      by_cases hc : ty = "webhook_callback_verification"
      · rw [if_pos hc] at h
        rcases hg : jsGet j "challenge" with e | ch
        · rw [hg] at h
          simp at h
        · rw [hg] at h
          simp at h
          rw [← h.1]
          show (200 : Nat) ≠ 403
          decide
      · rw [if_neg hc] at h
        by_cases hn : ty = "notification"
        · rw [if_pos hn] at h
          simp at h
          rw [← h.1]
          show (200 : Nat) ≠ 403
          decide
        · rw [if_neg hn] at h
          simp at h

/-- The request of the C9 witness: timestamp 500 ms, valid signature. -/
def req9 : ServerRequest :=
  ⟨some "m9", some "notification", some "500",
   some (Webhook.verifyMessage demoEnv "s3cr3t" ("m9" ++ "500" ++ "\x7b\x7d")), "\x7b\x7d"⟩

/-- The client state after the C9 witness's in-window request. -/
def client9 : Client :=
  { demoClient with webhookQ := (demoClient.webhookQ.push (mkNotifItem req9 (.jobj []))), seenWebhooks := (insertSeen "m9" demoClient.seenWebhooks) }

/-- C9 (witness): at `now = 600500` the message aged exactly `maxAge`
(600000 ms) and is rejected 403; at `now = 600499` it is one millisecond
inside the window and (as the second conjunct instantiates) its `200`
answer is not a 403 rejection. -/
theorem freshness_boundary_witness :
    Client.handleWebhookWithoutResponse demoEnv 600500 demoClient req9
      = .ok (some ⟨403, none⟩, demoClient) ∧
    (⟨200, none⟩ : Response).status ≠ 403 :=
  ⟨(freshness_boundary demoEnv 600500 demoClient req9 "m9" "notification" "500" 500
      (by decide) rfl rfl rfl (by decide) (by decide) (by decide) (by decide) rfl
      (by decide)).1 (by decide),
   (freshness_boundary demoEnv 600499 demoClient req9 "m9" "notification" "500" 500
      (by decide) rfl rfl rfl (by decide) (by decide) (by decide) (by decide) rfl
      (by decide)).2 (by decide) ⟨200, none⟩ client9 (by rfl)⟩

/-- C10: the replay guard records exactly the notifications that reach the
queue.  First conjunct: whatever the handler returns without raising,
either it left the replay-guard set and the queue untouched, or the
request was a `notification` that passed every check: its id was added to
the set, precisely its one item was pushed, and the answer was a bare 200
— the set and the queue grow together and only for message type
`notification`.  Second conjunct: a verification challenge, however valid,
is answered 200 with its challenge echoed while the state stays exactly as
it was, so re-sending the identical challenge re-runs the whole pipeline
and yields a fresh 200 echo, never a 204 duplicate acknowledgment. -/
theorem seen_marks_exactly_enqueued_notifications (env : JsEnv) (now : Int) (c : Client)
    (req : ServerRequest) :
    (∀ out c', Client.handleWebhookWithoutResponse env now c req = .ok (out, c') →
      ((c'.seenWebhooks = c.seenWebhooks ∧ c'.webhookQ = c.webhookQ) ∨
        (∃ i tm json, req.mId = some i ∧ req.mType = some "notification" ∧ req.mTime = some tm ∧
          env.parseJson req.body = some json ∧
          c'.seenWebhooks = insertSeen i c.seenWebhooks ∧
          c'.webhookQ = c.webhookQ.push (mkNotifItem req json) ∧
          out = some ⟨200, none⟩))) ∧
    (∀ i tm j ch, c.webhookSecret ≠ "" → req.mId = some i →
      req.mType = some "webhook_callback_verification" →
      req.mTime = some tm → i ≠ "" → tm ≠ "" → i ∉ c.seenWebhooks →
      isStillValidAt env now tm = true →
      matchesSignature env c.webhookSecret req i tm = true →
      env.parseJson req.body = some j → jsGet j "challenge" = .ok ch →
      Client.handleWebhookWithoutResponse env now c req = .ok (some ⟨200, some ch⟩, c)) := by
  constructor
  · intro out c' h
    by_cases hs : c.webhookSecret = ""
    · unfold Client.handleWebhookWithoutResponse at h
      rw [if_pos hs] at h
      simp at h
    · obtain ⟨mi, mt, mtm, sg, bd⟩ := req
      unfold Client.handleWebhookWithoutResponse at h
      cases mi <;> cases mt <;> cases mtm <;> simp [hs] at h
      all_goals try (obtain ⟨-, rfl⟩ := h; exact Or.inl ⟨rfl, rfl⟩)
      rename_i i ty tm
      split_ifs at h with h1 h2 h3 hc hn
      · simp at h
        obtain ⟨-, rfl⟩ := h
        exact Or.inl ⟨rfl, rfl⟩
      · simp at h
        obtain ⟨-, rfl⟩ := h
        exact Or.inl ⟨rfl, rfl⟩
      · simp at h
        obtain ⟨-, rfl⟩ := h
        exact Or.inl ⟨rfl, rfl⟩
      · rcases hpj : env.parseJson bd with _ | j <;> rw [hpj] at h <;> simp at h
        rcases hg : jsGet j "challenge" with e' | v
        · rw [hg] at h
          simp at h
        · rw [hg] at h
          simp at h
          obtain ⟨-, rfl⟩ := h
          exact Or.inl ⟨rfl, rfl⟩
      · rcases hpj : env.parseJson bd with _ | j <;> rw [hpj] at h <;> simp at h
        obtain ⟨h4, rfl⟩ := h
        exact Or.inr ⟨i, tm, j, rfl, by rw [hn], rfl, rfl, rfl, rfl, h4.symm⟩
      · rcases hpj : env.parseJson bd with _ | j <;> rw [hpj] at h <;> simp at h
        obtain ⟨-, rfl⟩ := h
        exact Or.inl ⟨rfl, rfl⟩
  · intro i tm j ch hs hid hty htm hi htm' hseen hvalid hsig hpj hch
    unfold Client.handleWebhookWithoutResponse
    rw [hid, hty, htm]
    simp [hs, hi, htm', hseen, hvalid, hsig, hpj, hch]

/-- The verification challenge of the C10 witness. -/
def req10 : ServerRequest :=
  ⟨some "mX", some "webhook_callback_verification", some "500",
   some (Webhook.verifyMessage demoEnv "s3cr3t"
     ("mX" ++ "500" ++ "\x7b\"challenge\":\"abc123\"\x7d")),
   "\x7b\"challenge\":\"abc123\"\x7d"⟩

/-- C10 (witness): both conjuncts applied at a concrete challenge — its
handling answers 200 with the echoed `abc123`, the state is the one passed
in (nothing marked seen, nothing enqueued), and the step
characterization's left disjunct is realized. -/
theorem seen_marks_exactly_enqueued_notifications_witness :
    ((demoClient.seenWebhooks = demoClient.seenWebhooks ∧
        demoClient.webhookQ = demoClient.webhookQ) ∨
      (∃ i tm json, req10.mId = some i ∧ req10.mType = some "notification" ∧
        req10.mTime = some tm ∧ demoEnv.parseJson req10.body = some json ∧
        demoClient.seenWebhooks = insertSeen i demoClient.seenWebhooks ∧
        demoClient.webhookQ = demoClient.webhookQ.push (mkNotifItem req10 json) ∧
        (some ⟨200, some (.jstr "abc123")⟩ : Option Response) = some ⟨200, none⟩)) ∧
    Client.handleWebhookWithoutResponse demoEnv 1000 demoClient req10
      = .ok (some ⟨200, some (.jstr "abc123")⟩, demoClient) :=
  ⟨(seen_marks_exactly_enqueued_notifications demoEnv 1000 demoClient req10).1
      (some ⟨200, some (.jstr "abc123")⟩) demoClient (by rfl),
   (seen_marks_exactly_enqueued_notifications demoEnv 1000 demoClient req10).2
      "mX" "500" (.jobj [("challenge", .jstr "abc123")]) (.jstr "abc123")
      (by decide) rfl rfl rfl (by decide) (by decide) (by decide) (by decide)
      (by decide) rfl rfl⟩

end Twitch
